import Mathlib

/-!
Shallow embedding of the Turing-machine engine from `TuringMachine.py` and
`constants.py`.  Python strings are modelled as `List Char`, Python dicts as
insertion-ordered association lists, Python sets as duplicate-free lists.
A step that raises an exception in Python returns an error outcome carrying
the machine exactly as the mutations performed before the raise left it.
-/

/-- A Python string, modelled as its list of characters. -/
abbrev Str := List Char

/-- `BLANK_SYMBOL = '_'` from constants.py. -/
def BLANK_SYMBOL : Str := ['_']

/-- `LEFT_END = 0` from constants.py. -/
def LEFT_END : Nat := 0

/-- `MAX_HISTORY_LEN = 1000` from constants.py. -/
def MAX_HISTORY_LEN : Nat := 1000

/-- The `Direction` enum of constants.py (LEFT, RIGHT, STOP, STAY). -/
inductive Direction where
  | left
  | right
  | stop
  | stay
deriving DecidableEq

/-- `Direction._VALUE_INT_MAPPING` / `Direction.to_int`: LEFT -1, RIGHT 1, STAY 0, STOP 0. -/
def Direction.to_int : Direction → Int
  | .left => -1
  | .right => 1
  | .stop => 0
  | .stay => 0

/-- The single-character token of a direction (`Direction.value`). -/
def Direction.token : Direction → Str
  | .left => ['<']
  | .right => ['>']
  | .stop => ['!']
  | .stay => ['.']

/-- `Direction.ALL.value = ['<', '>', '!', '.']`. -/
def Direction.ALL : List Str := [['<'], ['>'], ['!'], ['.']]

/-- The Python enum constructor `Direction(token)`, combined with the membership
test `direction not in Direction.ALL.value`: `none` exactly when the token is
not one of the four recognized tokens. -/
def Direction.ofToken : Str → Option Direction
  | ['<'] => some .left
  | ['>'] => some .right
  | ['!'] => some .stop
  | ['.'] => some .stay
  | _ => none

/-- Python `str.strip().split()`: split on runs of whitespace, dropping empty
fragments (so leading/trailing whitespace is ignored, making the `strip`
redundant). -/
def pysplit (s : Str) : List Str :=
  (s.splitOnP Char.isWhitespace).filter (fun t => t ≠ [])

/-- Failures of `Transition.from_str`: the `ValueError` raised by unpacking a
split of length ≠ 3, and `InvalidDirectionError`. -/
inductive ParseErr where
  | valueError
  | invalidDirection
deriving DecidableEq

/-- The `Transition` dataclass of constants.py. -/
structure Transition where
  next_state : Str
  write_symbol : Str
  direction : Direction
deriving DecidableEq

/-- `Transition.to_str`: `f'{write_symbol} {next_state} {direction.value}'`. -/
def Transition.to_str (t : Transition) : Str :=
  t.write_symbol ++ ' ' :: t.next_state ++ ' ' :: t.direction.token

/-- `Transition.from_str`: split into exactly three tokens
(`ValueError` otherwise), require the direction token to be recognized
(`InvalidDirectionError` otherwise). -/
def Transition.from_str (data : Str) : Except ParseErr Transition :=
  match pysplit data with
  | [symbol, state, direction] =>
    match Direction.ofToken direction with
    | none => .error .invalidDirection
    | some d => .ok ⟨state, symbol, d⟩
  | _ => .error .valueError

/-- The `StateInfo` dataclass of constants.py. -/
structure StateInfo where
  current_state : Str
  head_position : Nat
  tape : List Str
  step_count : Nat
deriving DecidableEq

/-- Lookup in an insertion-ordered association list (Python dict read). -/
def dictGet (k : Str) : List (Str × α) → Option α
  | [] => none
  | (k', v) :: rest => if k = k' then some v else dictGet k rest

/-- Python dict assignment `d[k] = v`: overwrite in place if present,
append otherwise. -/
def dictSet (k : Str) (v : α) : List (Str × α) → List (Str × α)
  | [] => [(k, v)]
  | (k', v') :: rest => if k = k' then (k, v) :: rest else (k', v') :: dictSet k v rest

/-- Python set `add`: insert if absent. -/
def setAdd (x : Str) (s : List Str) : List Str :=
  if x ∈ s then s else s ++ [x]

/-- The mutable fields of the `TuringMachine` class. -/
structure Machine where
  current_state : Str
  states : List (Str × List (Str × Transition))
  tape : List Str
  head_position : Nat
  step_count : Nat
  saved_state : Option StateInfo
  symbols : List Str
  history : List StateInfo
deriving DecidableEq

/-- `TuringMachine.__init__`. -/
def Machine.init : Machine :=
  { current_state := ['q', '0']
    states := [(['q', '0'], [])]
    tape := [BLANK_SYMBOL]
    head_position := LEFT_END
    step_count := 0
    saved_state := none
    symbols := [BLANK_SYMBOL]
    history := [] }

/-- The errors a `TuringMachine` method can raise. -/
inductive TMErr where
  | invalidTransition (state symbol : Str)
deriving DecidableEq

/-- `TuringMachine.new_transition`: parse the instruction; on success add the
transition for `(state, symbol)` (via `setdefault`) and add `symbol` to the
symbol set; any parse failure becomes `InvalidTransitionError(state, symbol)`. -/
def Machine.new_transition (m : Machine) (state symbol : Str) (instruction : Str) :
    Except TMErr Machine :=
  match Transition.from_str instruction with
  | .error _ => .error (.invalidTransition state symbol)
  | .ok t =>
    .ok { m with
          states := dictSet state (dictSet symbol t ((dictGet state m.states).getD [])) m.states
          symbols := setAdd symbol m.symbols }

/-- `TuringMachine.set_tape`: `self.tape = s or [BLANK_SYMBOL]`, reset current
state to `q0` and head to `LEFT_END`. -/
def Machine.set_tape (m : Machine) (s : List Str) : Machine :=
  { m with
    tape := if s = [] then [BLANK_SYMBOL] else s
    current_state := ['q', '0']
    head_position := LEFT_END }

/-- `TuringMachine.get_state_info` (the tape `.copy()` is the identity on
immutable lists). -/
def Machine.get_state_info (m : Machine) : StateInfo :=
  ⟨m.current_state, m.head_position, m.tape, m.step_count⟩

/-- `TuringMachine._move_head`: add the direction delta to the head position;
if it reaches -1 insert a blank at index 0 and clamp to `LEFT_END`; if it
equals the tape length append a blank. -/
def Machine.move_head (m : Machine) (direction : Direction) : Machine :=
  let p : Int := (m.head_position : Int) + direction.to_int
  let s1 : List Str × Int := if p = -1 then (BLANK_SYMBOL :: m.tape, (LEFT_END : Int)) else (m.tape, p)
  let s2 : List Str × Int :=
    if s1.2 = (s1.1.length : Int) then (s1.1 ++ [BLANK_SYMBOL], s1.2) else s1
  { m with tape := s2.1, head_position := s2.2.toNat }

/-- `TuringMachine.current_symbol`: `self.tape[self.head_position]` (total
model: out-of-range reads, which raise `IndexError` in Python and never occur
under the head invariant, return the blank symbol). -/
def Machine.current_symbol (m : Machine) : Str :=
  m.tape.getD m.head_position BLANK_SYMBOL

/-- Outcome of `TuringMachine.run_transition`.  The machine carried by an
error constructor is the object exactly as the mutations performed before the
raise left it (Python exceptions do not roll anything back). -/
inductive StepResult where
  | ok (cont : Bool) (m : Machine)
  | noTransition (symbol : Str) (m : Machine)
  | invalidState (state : Str) (m : Machine)
  | keyError (m : Machine)
deriving DecidableEq

/-- `TuringMachine.run_transition`, line by line: read the current symbol;
`KeyError` if the current state is missing from the table
(`self.states[self.current_state]`); `NoTransitionError(symbol)` if the symbol
has no entry; push the pre-step snapshot and pop the oldest entry when the
history exceeds `MAX_HISTORY_LEN`; write the instruction symbol at the head;
`_set_state` (raising `InvalidStateError` on an unknown next state, after the
write); increment the step counter; return 0 on STOP, else move the head and
return 1. -/
def Machine.run_transition (m : Machine) : StepResult :=
  let symbol := m.current_symbol
  match dictGet m.current_state m.states with
  | none => .keyError m
  | some inner =>
    match dictGet symbol inner with
    | none => .noTransition symbol m
    | some instruction =>
      let h1 := m.history ++ [m.get_state_info]
      let hist := if MAX_HISTORY_LEN < h1.length then h1.tail else h1
      let m1 := { m with history := hist, tape := m.tape.set m.head_position instruction.write_symbol }
      match dictGet instruction.next_state m1.states with
      | none => .invalidState instruction.next_state m1
      | some _ =>
        let m2 := { m1 with current_state := instruction.next_state, step_count := m1.step_count + 1 }
        if instruction.direction = .stop then .ok false m2
        else .ok true (m2.move_head instruction.direction)

/-- Outcome of `TuringMachine.run` under a fuel bound. -/
inductive RunResult where
  | halted (m : Machine)
  | failed (r : StepResult)
  | fuelOut (m : Machine)
deriving DecidableEq

/-- `TuringMachine.run`: `while self.run_transition(): pass`, with explicit
fuel to bound the loop; an exception from `run_transition` propagates. -/
def Machine.run : Nat → Machine → RunResult
  | 0, m => .fuelOut m
  | fuel + 1, m =>
    match m.run_transition with
    | .ok true m' => Machine.run fuel m'
    | .ok false m' => .halted m'
    | r => .failed r

/-- `TuringMachine.step_back`: pop the most recent history entry and restore
head position, tape, current state and step count from it; return 1, or 0 when
the history is empty. -/
def Machine.step_back (m : Machine) : Nat × Machine :=
  match m.history.getLast? with
  | none => (0, m)
  | some prev =>
    (1, { m with
          history := m.history.dropLast
          head_position := prev.head_position
          tape := prev.tape
          current_state := prev.current_state
          step_count := prev.step_count })

/-- `n` consecutive calls of `run_transition` that all succeed (each returning
0 or 1); `none` as soon as one raises. -/
def Machine.iterateOk : Nat → Machine → Option Machine
  | 0, m => some m
  | n + 1, m =>
    match m.run_transition with
    | .ok _ m' => Machine.iterateOk n m'
    | _ => none

/-- The persisted JSON document: a `tape` field and a `states` field mapping
state names to symbol-to-instruction-string mappings, in document order. -/
structure Document where
  tape : List Str
  states : List (Str × List (Str × Str))

/-- The inner loop of `load_from_file` for one state; aborts on the first
`new_transition` failure. -/
def loadSymbols (state : Str) : Machine → List (Str × Str) → Except TMErr Machine
  | m, [] => .ok m
  | m, (symbol, instruction) :: rest =>
    match m.new_transition state symbol instruction with
    | .error e => .error e
    | .ok m' => loadSymbols state m' rest

/-- The outer loop of `load_from_file` over the states of the document. -/
def loadStates : Machine → List (Str × List (Str × Str)) → Except TMErr Machine
  | m, [] => .ok m
  | m, (state, entries) :: rest =>
    match loadSymbols state m entries with
    | .error e => .error e
    | .ok m' => loadStates m' rest

/-- `TuringMachine.load_from_file` after the JSON parse: build a fresh machine,
set its tape, then add every transition in document order; any failure aborts
the whole load with no machine returned. -/
def load_from_file (doc : Document) : Except TMErr Machine :=
  loadStates (Machine.init.set_tape doc.tape) doc.states


/-- The machine object carried by a step outcome (for an error outcome, the
object as the raise left it). -/
def StepResult.machine : StepResult → Machine
  | .ok _ m => m
  | .noTransition _ m => m
  | .invalidState _ m => m
  | .keyError m => m

/-- The final machine of a completed run, `none` if the run failed or ran out
of fuel. -/
def RunResult.haltedM : RunResult → Option Machine
  | .halted m => some m
  | _ => none

/-- Lines 130-133 of `run_transition` as a function on histories: append the
pre-step snapshot, and pop the oldest entry when the length exceeds
`MAX_HISTORY_LEN`. -/
def pushHistory (hst : List StateInfo) (x : StateInfo) : List StateInfo :=
  if MAX_HISTORY_LEN < (hst ++ [x]).length then (hst ++ [x]).tail else hst ++ [x]

/-- The machine of §8's minimal concrete case: table
`{q0: {'0': "1 q0 >", '_': "_ q0 !"}}`, tape `['0','0']`. -/
def machineC2 : Machine :=
  ((((Machine.init.new_transition ['q', '0'] ['0'] "1 q0 >".toList).toOption.getD
        Machine.init).new_transition ['q', '0'] ['_'] "_ q0 !".toList).toOption.getD
      Machine.init).set_tape [['0'], ['0']]

/-- A machine whose only instruction names the unknown state `qX`: stepping it
hits `InvalidStateError`. -/
def machineBad : Machine :=
  (Machine.init.new_transition ['q', '0'] ['_'] "1 qX >".toList).toOption.getD Machine.init

/-- A machine that loops forever in place (`_ q0 .` on the blank symbol). -/
def loopM : Machine :=
  (Machine.init.new_transition ['q', '0'] ['_'] "_ q0 .".toList).toOption.getD Machine.init

/-- A persisted document whose single instruction string has 2 tokens instead
of 3. -/
def badDoc : Document :=
  ⟨[['0']], [(['q', '0'], [(['0'], "0 q1".toList)])]⟩

/-! ## Helper lemmas -/

theorem tail_append_single {α : Type} (l : List α) (x : α) (h : l ≠ []) :
    (l ++ [x]).tail = l.tail ++ [x] := by
  cases l <;> simp_all

theorem pushHistory_getLast (hst : List StateInfo) (x : StateInfo) :
    (pushHistory hst x).getLast? = some x := by
  rw [pushHistory]
  split_ifs with h
  · have hne : hst ≠ [] := by
      intro e
      subst e
      simp [MAX_HISTORY_LEN] at h
    rw [tail_append_single _ _ hne]
    exact List.getLast?_concat _
  · exact List.getLast?_concat _

theorem run_transition_ok_eq (m : Machine) (cont : Bool) (m' : Machine)
    (h : m.run_transition = .ok cont m') :
    m'.history = pushHistory m.history m.get_state_info ∧
    m'.step_count = m.step_count + 1 := by
  cases h1 : dictGet m.current_state m.states with
  | none => simp [Machine.run_transition, h1] at h
  | some inner =>
    cases h2 : dictGet m.current_symbol inner with
    | none => simp [Machine.run_transition, h1, h2] at h
    | some instruction =>
      cases h3 : dictGet instruction.next_state m.states with
      | none => simp [Machine.run_transition, h1, h2, h3] at h
      | some inner2 =>
        by_cases h4 : instruction.direction = .stop
        · simp [Machine.run_transition, h1, h2, h3, h4] at h
          obtain ⟨-, hm⟩ := h
          subst hm
          simp [pushHistory]
        · simp [Machine.run_transition, h1, h2, h3, h4] at h
          obtain ⟨-, hm⟩ := h
          subst hm
          simp [pushHistory, Machine.move_head]

theorem run_transition_invalidState_eq (m : Machine) (st : Str) (m' : Machine)
    (h : m.run_transition = .invalidState st m') :
    ∃ inner instruction,
      dictGet m.current_state m.states = some inner ∧
      dictGet m.current_symbol inner = some instruction ∧
      st = instruction.next_state ∧
      dictGet st m.states = none ∧
      m' = { m with
             history := pushHistory m.history m.get_state_info
             tape := m.tape.set m.head_position instruction.write_symbol } := by
  cases h1 : dictGet m.current_state m.states with
  | none => simp [Machine.run_transition, h1] at h
  | some inner =>
    cases h2 : dictGet m.current_symbol inner with
    | none => simp [Machine.run_transition, h1, h2] at h
    | some instruction =>
      cases h3 : dictGet instruction.next_state m.states with
      | none =>
        simp [Machine.run_transition, h1, h2, h3] at h
        obtain ⟨hst, hm⟩ := h
        subst hst
        subst hm
        exact ⟨inner, instruction, rfl, h2, rfl, h3, by simp [pushHistory]⟩
      | some inner2 =>
        by_cases h4 : instruction.direction = .stop <;>
          simp [Machine.run_transition, h1, h2, h3, h4] at h

theorem splitOnP_no_sep (p : Char → Bool) :
    ∀ (s t : Str), t ∈ s.splitOnP p → ∀ c ∈ t, p c = false := by
  intro s
  induction s with
  | nil =>
    intro t ht c hc
    simp [List.splitOnP_nil] at ht
    subst ht
    simp at hc
  | cons x xs ih =>
    intro t ht c hc
    rw [List.splitOnP_cons] at ht
    by_cases hx : p x
    · rw [if_pos hx] at ht
      rcases List.mem_cons.mp ht with rfl | ht'
      · simp at hc
      · exact ih t ht' c hc
    · rw [if_neg hx] at ht
      cases hsp : xs.splitOnP p with
      | nil => exact absurd hsp (List.splitOnP_ne_nil p xs)
      | cons hd tl =>
        rw [hsp] at ht
        simp only [List.modifyHead] at ht
        rcases List.mem_cons.mp ht with rfl | ht'
        · rcases List.mem_cons.mp hc with rfl | hc'
          · simpa using hx
          · exact ih hd (hsp ▸ List.mem_cons_self hd tl) c hc'
        · exact ih t (hsp ▸ List.mem_cons_of_mem hd ht') c hc

theorem pysplit_token_props (s t : Str) (h : t ∈ pysplit s) :
    t ≠ [] ∧ ∀ c ∈ t, c.isWhitespace = false := by
  rw [pysplit] at h
  have h1 := List.mem_filter.mp h
  exact ⟨by simpa using h1.2, fun c hc => splitOnP_no_sep Char.isWhitespace s t h1.1 c hc⟩

theorem pysplit_three_tokens (w st d : Str)
    (hw1 : w ≠ []) (hw2 : ∀ c ∈ w, c.isWhitespace = false)
    (hs1 : st ≠ []) (hs2 : ∀ c ∈ st, c.isWhitespace = false)
    (hd1 : d ≠ []) (hd2 : ∀ c ∈ d, c.isWhitespace = false) :
    pysplit (w ++ ' ' :: st ++ ' ' :: d) = [w, st, d] := by
  have hw2' : ∀ c ∈ w, ¬(Char.isWhitespace c) := fun c hc => by simp [hw2 c hc]
  have hs2' : ∀ c ∈ st, ¬(Char.isWhitespace c) := fun c hc => by simp [hs2 c hc]
  have hd2' : ∀ c ∈ d, ¬(Char.isWhitespace c) := fun c hc => by simp [hd2 c hc]
  rw [pysplit, List.append_assoc, List.cons_append,
      List.splitOnP_first Char.isWhitespace w hw2' ' ' (by decide) _,
      List.splitOnP_first Char.isWhitespace st hs2' ' ' (by decide) _,
      List.splitOnP_eq_single Char.isWhitespace d hd2']
  simp [List.filter, hw1, hs1, hd1]

theorem from_str_of_to_str (w st : Str) (dir : Direction)
    (hw1 : w ≠ []) (hw2 : ∀ c ∈ w, c.isWhitespace = false)
    (hs1 : st ≠ []) (hs2 : ∀ c ∈ st, c.isWhitespace = false) :
    Transition.from_str (Transition.to_str ⟨st, w, dir⟩) = .ok ⟨st, w, dir⟩ := by
  have h3 := pysplit_three_tokens w st dir.token hw1 hw2 hs1 hs2
    (by cases dir <;> decide) (by cases dir <;> decide)
  simp only [Transition.to_str, Transition.from_str, h3]
  cases dir <;> simp [Direction.ofToken, Direction.token]

theorem loadSymbols_error (state : Str) (entries : List (Str × Str)) :
    ∀ (m : Machine) (sym instr : Str), (sym, instr) ∈ entries →
      (∃ e, Transition.from_str instr = .error e) →
      ∃ st sy, loadSymbols state m entries = .error (.invalidTransition st sy) := by
  induction entries with
  | nil =>
    intro m sym instr hmem
    simp at hmem
  | cons hd rest ih =>
    intro m sym instr hmem ⟨e, he⟩
    obtain ⟨sy0, in0⟩ := hd
    rcases List.mem_cons.mp hmem with heq | hmem'
    · injection heq with he1 he2
      subst he1
      subst he2
      refine ⟨state, sym, ?_⟩
      simp [loadSymbols, Machine.new_transition, he]
    · cases hnt : m.new_transition state sy0 in0 with
      | error err =>
        cases err with
        | invalidTransition st sy => exact ⟨st, sy, by simp [loadSymbols, hnt]⟩
      | ok m' =>
        obtain ⟨st, sy, hres⟩ := ih m' sym instr hmem' ⟨e, he⟩
        exact ⟨st, sy, by simp [loadSymbols, hnt, hres]⟩

theorem loadStates_error (sts : List (Str × List (Str × Str))) :
    ∀ (m : Machine) (state sym instr : Str) (entries : List (Str × Str)),
      (state, entries) ∈ sts → (sym, instr) ∈ entries →
      (∃ e, Transition.from_str instr = .error e) →
      ∃ st sy, loadStates m sts = .error (.invalidTransition st sy) := by
  induction sts with
  | nil =>
    intro m state sym instr entries hmem
    simp at hmem
  | cons hd rest ih =>
    intro m state sym instr entries hmem hmem2 hbad
    obtain ⟨st0, en0⟩ := hd
    rcases List.mem_cons.mp hmem with heq | hmem'
    · injection heq with he1 he2
      subst he1
      subst he2
      obtain ⟨st, sy, hres⟩ := loadSymbols_error state entries m sym instr hmem2 hbad
      exact ⟨st, sy, by simp [loadStates, hres]⟩
    · cases hls : loadSymbols st0 m en0 with
      | error err =>
        cases err with
        | invalidTransition st sy => exact ⟨st, sy, by simp [loadStates, hls]⟩
      | ok m' =>
        obtain ⟨st, sy, hres⟩ := ih m' state sym instr entries hmem' hmem2 hbad
        exact ⟨st, sy, by simp [loadStates, hls, hres]⟩

theorem pushHistory_length_le (hst : List StateInfo) (x : StateInfo)
    (h : hst.length ≤ MAX_HISTORY_LEN) :
    (pushHistory hst x).length ≤ MAX_HISTORY_LEN := by
  rw [pushHistory]
  split_ifs with h1 <;> simp_all [MAX_HISTORY_LEN]

theorem run_transition_machine_history (m : Machine) :
    (m.run_transition.machine).history = m.history ∨
    (m.run_transition.machine).history = pushHistory m.history m.get_state_info := by
  cases h1 : dictGet m.current_state m.states with
  | none => left; simp [Machine.run_transition, h1, StepResult.machine]
  | some inner =>
    cases h2 : dictGet m.current_symbol inner with
    | none => left; simp [Machine.run_transition, h1, h2, StepResult.machine]
    | some instruction =>
      cases h3 : dictGet instruction.next_state m.states with
      | none =>
        right
        simp [Machine.run_transition, h1, h2, h3, StepResult.machine, pushHistory]
      | some inner2 =>
        by_cases h4 : instruction.direction = .stop <;>
          right <;>
          simp [Machine.run_transition, h1, h2, h3, h4, StepResult.machine, pushHistory,
            Machine.move_head]

theorem step_back_history_le (m : Machine) :
    ((m.step_back).2).history.length ≤ m.history.length := by
  rw [Machine.step_back]
  cases h : m.history.getLast? <;> simp [List.length_dropLast]

theorem pushHistory_map_range (k : Nat) (hst : List StateInfo) (x : StateInfo)
    (hx : x.step_count = k)
    (h : hst.map StateInfo.step_count =
      List.range' (k - min k MAX_HISTORY_LEN) (min k MAX_HISTORY_LEN)) :
    (pushHistory hst x).map StateInfo.step_count =
      List.range' ((k + 1) - min (k + 1) MAX_HISTORY_LEN) (min (k + 1) MAX_HISTORY_LEN) := by
  have hlen : hst.length = min k MAX_HISTORY_LEN := by
    have := congrArg List.length h
    simpa using this
  rw [pushHistory]
  simp only [MAX_HISTORY_LEN] at hlen h ⊢
  by_cases hk : k < 1000
  · have hmin : min k 1000 = k := by omega
    have hmin' : min (k + 1) 1000 = k + 1 := by omega
    have h1 : ¬(1000 < (hst ++ [x]).length) := by
      simp [hlen, hmin]
      omega
    rw [if_neg h1, List.map_append, h]
    simp only [List.map_cons, List.map_nil, hx, hmin, hmin', Nat.sub_self]
    have := List.range'_1_concat 0 k
    simp only [Nat.zero_add] at this
    simp [this.symm]
  · have hmin : min k 1000 = 1000 := by omega
    have hmin' : min (k + 1) 1000 = 1000 := by omega
    have h1 : 1000 < (hst ++ [x]).length := by
      simp [hlen, hmin]
    rw [if_pos h1]
    have hne : hst ≠ [] := by
      intro e
      rw [e] at hlen
      simp [hmin] at hlen
    rw [tail_append_single _ _ hne, List.map_append, List.map_tail, h]
    simp only [List.map_cons, List.map_nil, hx, hmin, hmin']
    have e1 : (1000 : Nat) = 999 + 1 := rfl
    rw [e1, List.range'_succ]
    simp only [List.tail_cons]
    have := List.range'_1_concat (k + 1 - 1000) 999
    rw [this]
    have e2 : k - 1000 + 1 = k + 1 - 1000 := by omega
    have e3 : k + 1 - 1000 + 999 = k := by omega
    rw [e2, e3]

theorem iterateOk_history_counts :
    ∀ (n k : Nat) (m mf : Machine),
      m.step_count = k →
      m.history.map StateInfo.step_count =
        List.range' (k - min k MAX_HISTORY_LEN) (min k MAX_HISTORY_LEN) →
      Machine.iterateOk n m = some mf →
      mf.step_count = k + n ∧
      mf.history.map StateInfo.step_count =
        List.range' ((k + n) - min (k + n) MAX_HISTORY_LEN) (min (k + n) MAX_HISTORY_LEN) := by
  intro n
  induction n with
  | zero =>
    intro k m mf hk hmap hit
    simp [Machine.iterateOk] at hit
    subst hit
    simpa using ⟨hk, hmap⟩
  | succ n ih =>
    intro k m mf hk hmap hit
    rw [Machine.iterateOk] at hit
    cases hr : m.run_transition with
    | ok cont m' =>
      rw [hr] at hit
      obtain ⟨hh, hsc⟩ := run_transition_ok_eq m cont m' hr
      have hsnap : m.get_state_info.step_count = k := by
        simp [Machine.get_state_info, hk]
      have hm' : m'.history.map StateInfo.step_count =
          List.range' ((k + 1) - min (k + 1) MAX_HISTORY_LEN) (min (k + 1) MAX_HISTORY_LEN) := by
        rw [hh]
        exact pushHistory_map_range k m.history m.get_state_info hsnap hmap
      have hrec := ih (k + 1) m' mf (by omega) hm' hit
      refine ⟨by omega, ?_⟩
      have e : k + 1 + n = k + (n + 1) := by omega
      rw [e] at hrec
      exact hrec.2
    | noTransition s mm => rw [hr] at hit; exact absurd hit (by simp)
    | invalidState s mm => rw [hr] at hit; exact absurd hit (by simp)
    | keyError mm => rw [hr] at hit; exact absurd hit (by simp)

/-! ## Claim theorems -/

/-- C1: for every machine, a step that completes (`run_transition` returning 0
or 1) followed immediately by `step_back` restores the current state, the head
position, the tape contents and the step count to exactly their pre-step
values (and `step_back` reports 1, a performed rollback). -/
theorem step_then_undo_restores (m : Machine) (cont : Bool) (m' : Machine)
    (h : m.run_transition = .ok cont m') :
    (m'.step_back).1 = 1 ∧
    (m'.step_back).2.current_state = m.current_state ∧
    (m'.step_back).2.head_position = m.head_position ∧
    (m'.step_back).2.tape = m.tape ∧
    (m'.step_back).2.step_count = m.step_count := by
  obtain ⟨hh, -⟩ := run_transition_ok_eq m cont m' h
  have hlast : m'.history.getLast? = some m.get_state_info := by
    rw [hh]
    exact pushHistory_getLast _ _
  simp [Machine.step_back, hlast, Machine.get_state_info]

/-- Witness for C1: one concrete step on the §8 machine, undone. -/
theorem step_then_undo_restores_witness :
    machineC2.run_transition = .ok true machineC2.run_transition.machine ∧
    ((machineC2.run_transition.machine).step_back).1 = 1 ∧
    ((machineC2.run_transition.machine).step_back).2.tape = machineC2.tape ∧
    ((machineC2.run_transition.machine).step_back).2.step_count = machineC2.step_count := by
  have h0 : machineC2.run_transition = .ok true machineC2.run_transition.machine := by decide
  have h := step_then_undo_restores machineC2 true _ h0
  exact ⟨h0, h.1, h.2.2.2.1, h.2.2.2.2⟩

/-- C2: for the machine with table `{q0: {'0': "1 q0 >", '_': "_ q0 !"}}` and
tape `['0','0']`, `run()` halts after exactly 3 steps (it is not yet halted
with fuel for only 2 steps) with final tape `['1','1','_']`, final state `q0`,
and step count 3. -/
theorem run_concrete_scenario :
    (Machine.run 3 machineC2).haltedM.map Machine.tape = some [['1'], ['1'], ['_']] ∧
    (Machine.run 3 machineC2).haltedM.map Machine.current_state = some ['q', '0'] ∧
    (Machine.run 3 machineC2).haltedM.map Machine.step_count = some 3 ∧
    (Machine.run 2 machineC2).haltedM = none := by
  decide

/-- C3: when the instruction's next state is not a key of the transition
table, `run_transition` fails with `InvalidStateError` naming that state; the
failure happens after the write symbol has been written at the head position
(the write is not rolled back) and before any head movement, and the current
state and step count keep their pre-step values. -/
theorem invalid_state_after_write_before_move (m : Machine) (st : Str) (m' : Machine)
    (h : m.run_transition = .invalidState st m') :
    (∃ inner instruction,
        dictGet m.current_state m.states = some inner ∧
        dictGet m.current_symbol inner = some instruction ∧
        st = instruction.next_state ∧
        dictGet st m.states = none ∧
        m'.tape = m.tape.set m.head_position instruction.write_symbol) ∧
    m'.current_state = m.current_state ∧
    m'.step_count = m.step_count ∧
    m'.head_position = m.head_position := by
  obtain ⟨inner, instruction, h1, h2, h3, h4, h5⟩ := run_transition_invalidState_eq m st m' h
  subst h5
  exact ⟨⟨inner, instruction, h1, h2, h3, h4, rfl⟩, rfl, rfl, rfl⟩

/-- Witness for C3: `machineBad`'s only instruction writes `1` and names the
unknown state `qX`; stepping fails with the write retained. -/
theorem invalid_state_after_write_before_move_witness :
    machineBad.run_transition = .invalidState ['q', 'X'] machineBad.run_transition.machine ∧
    (machineBad.run_transition.machine).tape = [['1']] ∧
    (machineBad.run_transition.machine).current_state = machineBad.current_state ∧
    (machineBad.run_transition.machine).step_count = machineBad.step_count := by
  have h0 : machineBad.run_transition = .invalidState ['q', 'X'] machineBad.run_transition.machine := by
    decide
  have h := invalid_state_after_write_before_move machineBad _ _ h0
  exact ⟨h0, by decide, h.2.1, h.2.2.1⟩

/-- C4: (i) every successful step replaces the history by `pushHistory`
(append the pre-step snapshot, then evict the oldest entry when the length
would exceed 1000 — FIFO) and preserves the 1000-entry bound; (ii) the bound
is preserved by every `run_transition` outcome and by `step_back`; (iii) from
a fresh history and step count 0, after at least 1001 successful steps no
history entry has step count 0, so the first step's pre-step snapshot can no
longer be reached by repeated undo. -/
theorem history_capped_fifo :
    (∀ (m : Machine) (cont : Bool) (m' : Machine), m.run_transition = .ok cont m' →
      m'.history = pushHistory m.history m.get_state_info ∧
      (m.history.length ≤ MAX_HISTORY_LEN → m'.history.length ≤ MAX_HISTORY_LEN)) ∧
    (∀ m : Machine, m.history.length ≤ MAX_HISTORY_LEN →
      (m.run_transition.machine).history.length ≤ MAX_HISTORY_LEN ∧
      ((m.step_back).2).history.length ≤ MAX_HISTORY_LEN) ∧
    (∀ (n : Nat) (m0 mf : Machine), m0.history = [] → m0.step_count = 0 →
      Machine.iterateOk n m0 = some mf → 1001 ≤ n →
      ∀ s ∈ mf.history, s.step_count ≠ 0) := by
  refine ⟨?_, ?_, ?_⟩
  · intro m cont m' h
    obtain ⟨hh, -⟩ := run_transition_ok_eq m cont m' h
    exact ⟨hh, fun hle => hh ▸ pushHistory_length_le _ _ hle⟩
  · intro m hle
    constructor
    · rcases run_transition_machine_history m with h | h
      · rw [h]; exact hle
      · rw [h]; exact pushHistory_length_le _ _ hle
    · exact le_trans (step_back_history_le m) hle
  · intro n m0 mf h0 hsc hit hn s hs
    have hinv := iterateOk_history_counts n 0 m0 mf hsc (by simp [h0]) hit
    have hmem : s.step_count ∈ mf.history.map StateInfo.step_count :=
      List.mem_map_of_mem _ hs
    rw [hinv.2, List.mem_range'_1] at hmem
    simp [MAX_HISTORY_LEN] at hmem
    omega

set_option maxRecDepth 100000 in
/-- Witness for C4: the in-place looping machine runs 1001 successful steps,
after which no history entry carries step count 0. -/
theorem history_capped_fifo_witness :
    ∃ mf, Machine.iterateOk 1001 loopM = some mf ∧ ∀ s ∈ mf.history, s.step_count ≠ 0 := by
  have hs : (Machine.iterateOk 1001 loopM).isSome = true := by decide
  refine ⟨(Machine.iterateOk 1001 loopM).get hs, (Option.some_get hs).symm, ?_⟩
  exact history_capped_fifo.2.2 1001 loopM _ (by decide) (by decide)
    (Option.some_get hs).symm (by omega)

/-- C5: when the transition table has no entry for the current state and the
symbol under the head, `run_transition` fails with `NoTransitionError` naming
that symbol, and the machine is returned entirely unchanged (in particular
nothing was pushed onto the history and no field was mutated). -/
theorem no_transition_leaves_machine_unchanged (m : Machine)
    (inner : List (Str × Transition))
    (h1 : dictGet m.current_state m.states = some inner)
    (h2 : dictGet m.current_symbol inner = none) :
    m.run_transition = .noTransition m.current_symbol m := by
  simp [Machine.run_transition, h1, h2]

/-- Witness for C5: a freshly constructed machine reads the blank symbol, for
which `q0` has no instruction; the step fails with the machine unchanged. -/
theorem no_transition_leaves_machine_unchanged_witness :
    Machine.init.run_transition = .noTransition Machine.init.current_symbol Machine.init :=
  no_transition_leaves_machine_unchanged Machine.init [] (by decide) (by decide)

/-- C6: during head movement, when the head position plus the direction delta
is -1, exactly one blank cell is inserted at tape index 0 and the head
position becomes 0; when it equals the tape length, exactly one blank cell is
appended and the head moves onto it; and after every movement the head
position lies within `[0, tape_length - 1]`. -/
theorem move_head_spec (m : Machine) (d : Direction)
    (h : m.head_position < m.tape.length) :
    ((m.head_position : Int) + d.to_int = -1 →
      (m.move_head d).tape = BLANK_SYMBOL :: m.tape ∧ (m.move_head d).head_position = 0) ∧
    ((m.head_position : Int) + d.to_int = (m.tape.length : Int) →
      (m.move_head d).tape = m.tape ++ [BLANK_SYMBOL] ∧
      (m.move_head d).head_position = m.tape.length) ∧
    (m.move_head d).head_position < (m.move_head d).tape.length := by
  have hd : d.to_int = -1 ∨ d.to_int = 0 ∨ d.to_int = 1 := by
    cases d <;> simp [Direction.to_int]
  simp only [Machine.move_head]
  split_ifs with h1 h2 h3 <;>
    constructor <;>
    try constructor
  all_goals try intro hx
  all_goals simp_all [LEFT_END]
  all_goals omega

/-- Witness for C6: moving left from head position 0 on the fresh one-cell
machine inserts one blank at index 0 and keeps the head in range. -/
theorem move_head_spec_witness :
    (Machine.init.move_head .left).tape = BLANK_SYMBOL :: Machine.init.tape ∧
    (Machine.init.move_head .left).head_position = 0 ∧
    (Machine.init.move_head .left).head_position < (Machine.init.move_head .left).tape.length := by
  have h := move_head_spec Machine.init .left (by decide)
  exact ⟨(h.1 (by decide)).1, (h.1 (by decide)).2, h.2.2⟩

/-- C7: for every instruction string of exactly 3 whitespace-separated tokens
whose third token is one of the four recognized direction tokens,
parse-serialize-parse equals a single parse:
`from_str (to_str (from_str s)) = from_str s`. -/
theorem parse_serialize_parse_roundtrip (s w st d : Str)
    (h : pysplit s = [w, st, d]) (hd : d ∈ Direction.ALL) :
    (Transition.from_str s).bind (fun t => Transition.from_str t.to_str) =
      Transition.from_str s := by
  obtain ⟨hw1, hw2⟩ := pysplit_token_props s w (by rw [h]; simp)
  obtain ⟨hs1, hs2⟩ := pysplit_token_props s st (by rw [h]; simp)
  simp only [Direction.ALL, List.mem_cons, List.not_mem_nil, or_false] at hd
  have hparse : ∀ dir : Direction, Direction.ofToken d = some dir →
      Transition.from_str s = .ok ⟨st, w, dir⟩ := by
    intro dir hdir
    simp [Transition.from_str, h, hdir]
  rcases hd with rfl | rfl | rfl | rfl
  · rw [hparse .left rfl]
    simp [Except.bind, from_str_of_to_str w st .left hw1 hw2 hs1 hs2]
  · rw [hparse .right rfl]
    simp [Except.bind, from_str_of_to_str w st .right hw1 hw2 hs1 hs2]
  · rw [hparse .stop rfl]
    simp [Except.bind, from_str_of_to_str w st .stop hw1 hw2 hs1 hs2]
  · rw [hparse .stay rfl]
    simp [Except.bind, from_str_of_to_str w st .stay hw1 hw2 hs1 hs2]

/-- Witness for C7: the instruction string `"1 q0 >"`. -/
theorem parse_serialize_parse_roundtrip_witness :
    pysplit "1 q0 >".toList = [['1'], ['q', '0'], ['>']] ∧
    (Transition.from_str "1 q0 >".toList).bind (fun t => Transition.from_str t.to_str) =
      Transition.from_str "1 q0 >".toList :=
  ⟨by decide, parse_serialize_parse_roundtrip "1 q0 >".toList ['1'] ['q', '0'] ['>']
      (by decide) (by decide)⟩

/-- C8: when any instruction string anywhere in a persisted document fails to
parse, `load_from_file` returns the transition-format error
(`InvalidTransitionError`) and no machine object, so no partially constructed
machine is produced and a caller's previously active machine is untouched. -/
theorem load_aborts_on_bad_instruction (doc : Document)
    (state sym instr : Str) (entries : List (Str × Str))
    (h1 : (state, entries) ∈ doc.states) (h2 : (sym, instr) ∈ entries)
    (h3 : ∃ e, Transition.from_str instr = .error e) :
    ∃ st sy, load_from_file doc = .error (.invalidTransition st sy) := by
  obtain ⟨st, sy, hres⟩ := loadStates_error doc.states _ state sym instr entries h1 h2 h3
  exact ⟨st, sy, hres⟩

/-- Witness for C8: a document whose instruction string `"0 q1"` has 2 tokens
instead of 3; loading aborts with the transition-format error. -/
theorem load_aborts_on_bad_instruction_witness :
    Transition.from_str "0 q1".toList = .error .valueError ∧
    ∃ st sy, load_from_file badDoc = .error (.invalidTransition st sy) :=
  ⟨rfl,
   load_aborts_on_bad_instruction badDoc ['q', '0'] ['0'] "0 q1".toList
     [(['0'], "0 q1".toList)] (by simp [badDoc]) (by simp)
     ⟨.valueError, rfl⟩⟩

/-- C9: `set_tape` replaces the tape with the given sequence (substituting a
single blank cell when it is empty), resets the current state to `q0` and the
head position to 0, and leaves the step count, the history, the transition
table, the known-symbols set and the saved snapshot unchanged. -/
theorem set_tape_spec_frame (m : Machine) (s : List Str) :
    (m.set_tape s).tape = (if s = [] then [BLANK_SYMBOL] else s) ∧
    (m.set_tape s).current_state = ['q', '0'] ∧
    (m.set_tape s).head_position = 0 ∧
    (m.set_tape s).step_count = m.step_count ∧
    (m.set_tape s).history = m.history ∧
    (m.set_tape s).states = m.states ∧
    (m.set_tape s).symbols = m.symbols ∧
    (m.set_tape s).saved_state = m.saved_state := by
  simp [Machine.set_tape, LEFT_END]

/-- C10: when a step fails with `InvalidStateError`, the pre-step snapshot was
already pushed onto the history, so a single `step_back` returns 1 (a
performed rollback) and restores the current state, head position, tape —
reverting the partially applied write — and step count to their pre-step
values. -/
theorem invalid_state_then_undo_restores (m : Machine) (st : Str) (m' : Machine)
    (h : m.run_transition = .invalidState st m') :
    (m'.step_back).1 = 1 ∧
    (m'.step_back).2.current_state = m.current_state ∧
    (m'.step_back).2.head_position = m.head_position ∧
    (m'.step_back).2.tape = m.tape ∧
    (m'.step_back).2.step_count = m.step_count := by
  obtain ⟨inner, instruction, h1, h2, h3, h4, h5⟩ := run_transition_invalidState_eq m st m' h
  have hlast : m'.history.getLast? = some m.get_state_info := by
    rw [h5]
    exact pushHistory_getLast _ _
  simp [Machine.step_back, hlast, Machine.get_state_info]

/-- Witness for C10: undoing the failed step on `machineBad` restores the
original blank tape. -/
theorem invalid_state_then_undo_restores_witness :
    ((machineBad.run_transition.machine).step_back).1 = 1 ∧
    ((machineBad.run_transition.machine).step_back).2.tape = machineBad.tape := by
  have h0 : machineBad.run_transition = .invalidState ['q', 'X'] machineBad.run_transition.machine := by
    decide
  have h := invalid_state_then_undo_restores machineBad _ _ h0
  exact ⟨h.1, h.2.2.2.1⟩
